import Mathlib

set_option maxHeartbeats 1000000

namespace LifeExpectancy

/-!
Shallow embedding of `life_expectancy/cleaning.py` (`clean_data`) and
`life_expectancy/regions.py` (`Region`).

Conventions of the embedding:

* pandas cells are `String`s; a raw table is the first (composite-key) column
  plus the year columns, in frame order.
* numeric values (pandas `float64`) are modelled as `PyFloat`: exact
  rationals for finite values and a signed infinity for the `inf`/`infinity`
  strings that `pd.to_numeric` parses case-insensitively; `pd.NA`/`NaN`
  results of the coercing parse are modelled as `none : Option PyFloat`.
* the two fatal paths of `clean_data` (the column assignment of the key split
  raising `ValueError` when the expanded width differs from the four target
  columns, and `astype(int)` raising on a non-numeric year label) are modelled
  by `Except CleanError`.
-/

/-! ### ASCII character classes used by the Python operations -/

/-- ASCII decimal digit, as accepted by the numeric parsers. -/
def isDigitC (c : Char) : Bool := decide (48 ≤ c.toNat) && decide (c.toNat ≤ 57)

/-- Lowercase ASCII letter: the character class `[a-z]` of the flag-stripping
regular expression on line 54 of `cleaning.py`. -/
def isLowerAZ (c : Char) : Bool := decide (97 ≤ c.toNat) && decide (c.toNat ≤ 122)

/-- Uppercase ASCII letter. -/
def isUpperAZ (c : Char) : Bool := decide (65 ≤ c.toNat) && decide (c.toNat ≤ 90)

/-- ASCII letter. -/
def isLetterC (c : Char) : Bool := isLowerAZ c || isUpperAZ c

/-- The whitespace class of Python's `str.strip()` and of `\s` in `re`
(ASCII range): space, tab, newline, carriage return, vertical tab, form feed. -/
def isPySpace (c : Char) : Bool :=
  decide (c.toNat = 32) || decide (c.toNat = 9) || decide (c.toNat = 10) ||
    decide (c.toNat = 13) || decide (c.toNat = 11) || decide (c.toNat = 12)

/-- Python `str.strip()` (ASCII whitespace). -/
def pyStrip (s : String) : String :=
  ⟨((s.data.dropWhile isPySpace).reverse.dropWhile isPySpace).reverse⟩

/-! ### Splitting -/

/-- Split a character list on the separators selected by `p`, keeping empty
pieces: the semantics of Python `str.split(sep)` with a one-character
separator. -/
def splitOnP (p : Char → Bool) : List Char → List (List Char)
  | [] => [[]]
  | c :: cs =>
    match splitOnP p cs with
    | [] => [[]]
    | r :: rs => if p c then [] :: r :: rs else (c :: r) :: rs

/-- Python `s.split(",")`, as used on line 36 of `cleaning.py`. -/
def splitKey (s : String) : List String :=
  (splitOnP (fun c => c = ',') s.data).map (fun cs => ⟨cs⟩)

/-! ### Numeric parsing (`astype(int)` and `pd.to_numeric`) -/

/-- Numeric value of a digit character. -/
def digitVal (c : Char) : Nat := c.toNat - 48

/-- Value of a digit string, most significant first. -/
def natOfDigits (cs : List Char) : Nat := cs.foldl (fun a c => 10 * a + digitVal c) 0

/-- Parse a non-empty all-digit character list as a natural number. -/
def parseNatList (cs : List Char) : Option Nat :=
  if cs.isEmpty then none
  else if cs.all isDigitC then some (natOfDigits cs) else none

/-- Strip one optional leading sign, returning the sign as `1` or `-1`. -/
def stripSign (cs : List Char) : Int × List Char :=
  match cs with
  | [] => (1, [])
  | c :: rest =>
    if c = '+' then (1, rest)
    else if c = '-' then (-1, rest)
    else (1, c :: rest)

/-- Parse an optionally-signed decimal integer: the semantics of Python
`int(...)` on the stripped year labels (`astype(int)`, line 49). -/
def parseSignedInt (cs : List Char) : Option Int :=
  (parseNatList (stripSign cs).2).map (fun n => (stripSign cs).1 * n)

/-- `int(...)` applied to a string. -/
def parseIntStr (s : String) : Option Int := parseSignedInt s.data

/-- Parse an unsigned decimal mantissa: digits with at most one point, at
least one digit overall (`"21"`, `"21.8"`, `"21."`, `".5"`).  The result is
the pair (digits as an integer, number of decimal places), so the mantissa's
value is the first component divided by ten to the second. -/
def parseMantissa (cs : List Char) : Option (Nat × Nat) :=
  match splitOnP (fun c => c = '.') cs with
  | [i] => (parseNatList i).map (fun n => (n, 0))
  | [i, f] =>
    if i.isEmpty && f.isEmpty then none
    else if i.all isDigitC && f.all isDigitC then
      some (natOfDigits i * 10 ^ f.length + natOfDigits f, f.length)
    else none
  | _ => none

/-- A pandas `float64` value as produced by `pd.to_numeric`: a finite value
(modelled exactly as a rational) or a signed infinity (pandas parses the
strings `inf`/`infinity` case-insensitively, with an optional sign, to
`±inf`).  `NaN` never needs a constructor: it only arises from the coercion
of unparseable cells, is removed by `dropna`, and is modelled as `none`
upstream. -/
inductive PyFloat where
  | finite (q : Rat)
  | inf (neg : Bool)
deriving DecidableEq, Repr

/-- Lowercase an uppercase ASCII letter, leave anything else unchanged. -/
def toLowerAZ (c : Char) : Char :=
  if isUpperAZ c then Char.ofNat (c.toNat + 32) else c

/-- Whether a (sign-stripped) character list is one of the infinity strings
that pandas' numeric parser accepts case-insensitively: `inf` or
`infinity`. -/
def isInfString (cs : List Char) : Bool :=
  decide (cs.map toLowerAZ = "inf".data) || decide (cs.map toLowerAZ = "infinity".data)

/-- The coercing float parse of `pd.to_numeric(..., errors="coerce")`
(line 55): optional sign, then either a case-insensitive infinity string
(parsed to a signed infinity, as pandas' tokenizer does), or a decimal
mantissa with an optional `e`/`E` exponent; anything else coerces to missing
(`none`).  (`Int.toNat` of a negative exponent is `0`, so a negative exponent
divides by the matching power of ten instead of multiplying.) -/
def parseFloat (s : String) : Option PyFloat :=
  if isInfString (stripSign s.data).2 then
    some (.inf (decide ((stripSign s.data).1 = -1)))
  else
    match splitOnP (fun c => c = 'e' || c = 'E') (stripSign s.data).2 with
    | [m] =>
      (parseMantissa m).map (fun p =>
        PyFloat.finite (mkRat ((stripSign s.data).1 * p.1) (10 ^ p.2)))
    | [m, e] => do
      let p ← parseMantissa m
      let ev ← parseSignedInt e
      pure (PyFloat.finite (mkRat ((stripSign s.data).1 * p.1 * (10 : Int) ^ ev.toNat)
        (10 ^ p.2 * 10 ^ (-ev).toNat)))
    | _ => none

/-! ### Value cleaning (lines 53–56 of `cleaning.py`) -/

/-- The substitution `re.sub(r"\s*[a-z]+$", "", ·)` on a reversed character
list: remove a maximal trailing run of lowercase letters, together with the
whitespace immediately before it, if the run is non-empty. -/
def stripFlagsRev (cs : List Char) : List Char :=
  if (cs.takeWhile isLowerAZ).isEmpty then cs
  else (cs.dropWhile isLowerAZ).dropWhile isPySpace

/-- `Series.str.replace(r"\s*[a-z]+$", "", regex=True)` (line 54) applied to
one cell. -/
def stripFlags (s : String) : String := ⟨(stripFlagsRev s.data.reverse).reverse⟩

/-- Per-cell value cleaning of lines 53–55: strip surrounding whitespace, map
the literal sentinel `":"` to missing, strip a trailing lowercase flag
sequence, then parse with coercion; `none` is the `NaN`/`NA` that `dropna`
(line 56) removes. -/
def cleanValue (cell : String) : Option PyFloat :=
  let t := pyStrip cell
  if t = ":" then none
  else parseFloat (stripFlags t)

/-- Whether a cell, after whitespace and flag stripping and ignoring an
optional sign, is one of the infinity strings: exactly these cells clean to
`±inf` (their rows are kept) instead of to a finite value or to missing. -/
def cleansToInf (cell : String) : Bool :=
  isInfString (stripSign (stripFlags (pyStrip cell)).data).2

/-! ### The table model -/

/-- A raw table as loaded from the TSV file: the first column (its header name
and its cells, one per row) followed by the year columns (header label and
cells, in frame order). -/
structure RawTable where
  keyName : String
  keyCol : List String
  yearCols : List (String × List String)
deriving DecidableEq, Repr

/-- Rectangularity of the frame: every year column has one cell per row. -/
def RawTable.wf (t : RawTable) : Prop :=
  ∀ c ∈ t.yearCols, c.2.length = t.keyCol.length

instance (t : RawTable) : Decidable t.wf := by
  unfold RawTable.wf; infer_instance

/-- The width of `df.iloc[:, 0].str.split(",", expand=True)`: the maximum
number of comma-separated parts over all rows (`0` for an empty table).
The assignment on line 36 raises `ValueError` unless this equals `4`. -/
def expandWidth (t : RawTable) : Nat :=
  (t.keyCol.map (fun k => (splitKey k).length)).foldl max 0

/-- The four columns produced by the key split for one row; rows with fewer
parts than the expanded width of four are padded with `None` by pandas, which
`Option.none` models here. -/
structure SplitRow where
  unit : Option String
  sex : Option String
  age : Option String
  region : Option String
deriving DecidableEq, Repr

/-- The split of one composite key into the `unit`, `sex`, `age`, `region`
fields (line 36). -/
def toSplitRow (parts : List String) : SplitRow :=
  ⟨parts[0]?, parts[1]?, parts[2]?, parts[3]?⟩

/-- All rows of the key column, split. -/
def splitRows (t : RawTable) : List SplitRow :=
  t.keyCol.map (fun k => toSplitRow (splitKey k))

/-- One row of the melted (long-format) frame: id fields, the year column's
label, and the raw cell (lines 42–46). -/
structure MeltRow where
  key : SplitRow
  year : String
  value : String
deriving DecidableEq, Repr

/-- `df.melt(id_vars=["unit","sex","age","region"], var_name="year",
value_name="value")`: one output row per (row × year column), stacked year
column by year column in frame order. -/
def meltedRows (t : RawTable) : List MeltRow :=
  t.yearCols.flatMap (fun c => ((splitRows t).zip c.2).map (fun p => ⟨p.1, c.1, p.2⟩))

/-- A melted row with its year label stripped and parsed (line 49). -/
structure ParsedRow where
  key : SplitRow
  year : Int
  value : String
deriving DecidableEq, Repr

/-- `df["year"].str.strip().astype(int)` (line 49): every year label must
parse as an integer after stripping, otherwise `astype` raises. -/
def parseYears : List MeltRow → Option (List ParsedRow)
  | [] => some []
  | r :: rs => do
    let y ← parseIntStr (pyStrip r.year)
    let rest ← parseYears rs
    pure (⟨r.key, y, r.value⟩ :: rest)

/-- One row of the cleaned table; `year : Int` models the integer dtype and
`value : PyFloat` the float dtype of the output. -/
structure CleanRow where
  unit : Option String
  sex : Option String
  age : Option String
  region : Option String
  year : Int
  value : PyFloat
deriving DecidableEq, Repr

/-- Value cleaning plus `dropna(subset=["value"])` (lines 53–56): rows whose
cell coerces to missing are removed; surviving rows carry the parsed float. -/
def dropNullValues (rows : List ParsedRow) : List CleanRow :=
  rows.filterMap (fun r =>
    (cleanValue r.value).map (fun v => ⟨r.key.unit, r.key.sex, r.key.age, r.key.region, r.year, v⟩))

/-- `df[df["region"] == region]` (line 59): exact string equality against the
requested code; a null region field never matches. -/
def filterRegion (rows : List CleanRow) (region : String) : List CleanRow :=
  rows.filter (fun r => decide (r.region = some region))

/-- The column order of the cleaned frame: the melt id variables followed by
`var_name` and `value_name`. -/
def cleanColumns : List String := ["unit", "sex", "age", "region", "year", "value"]

/-- The cleaned table: its column order and its rows. -/
structure CleanTable where
  columns : List String
  rows : List CleanRow
deriving DecidableEq, Repr

/-- The fatal error paths of `clean_data`. -/
inductive CleanError where
  | splitError
  | yearError
deriving DecidableEq, Repr

/-- `clean_data(df, region)` of `cleaning.py`, lines 34–61: split the first
column into four fields (raising when the expanded split width is not four),
melt the year columns, strip-and-parse the year labels (raising on a
non-numeric label), clean the value cells, drop missing values, and filter by
region. -/
def clean_data (t : RawTable) (region : String) : Except CleanError CleanTable :=
  if expandWidth t ≠ 4 then .error .splitError
  else
    match parseYears (meltedRows t) with
    | none => .error .yearError
    | some rows => .ok ⟨cleanColumns, filterRegion (dropNullValues rows) region⟩

/-! ### The in-place effect of `clean_data` on the caller's frame

Line 36, `df[["unit", "sex", "age", "region"]] = ...`, is the only statement
of `clean_data` that mutates the DataFrame passed by the caller: pandas
`__setitem__` stores the four split columns into the caller's object (raising
before any mutation when the widths disagree).  Every later step rebinds the
local name `df` to a fresh frame (`drop`, `melt`, column assignments on the
melted frame, boolean indexing), leaving the caller's object untouched. -/

/-- A pandas frame, as visible to the caller: named columns of cells, where a
cell may be null. -/
abbrev Frame := List (String × List (Option String))

/-- The frame the caller passed to `clean_data`. -/
def rawFrame (t : RawTable) : Frame :=
  (t.keyName, t.keyCol.map some) :: t.yearCols.map (fun c => (c.1, c.2.map some))

/-- pandas `df[name] = col`: replace the column when the name exists,
otherwise append it. -/
def setCol (f : Frame) (name : String) (col : List (Option String)) : Frame :=
  if f.any (fun c => c.1 = name) then
    f.map (fun c => if c.1 = name then (name, col) else c)
  else f ++ [(name, col)]

/-- The caller's frame after `clean_data` returns or raises: unchanged when
the split assignment raises, otherwise with the four split columns stored. -/
def callerFrameAfter (t : RawTable) : Frame :=
  if expandWidth t ≠ 4 then rawFrame t
  else
    setCol (setCol (setCol (setCol (rawFrame t)
      "unit" ((splitRows t).map (fun r => r.unit)))
      "sex" ((splitRows t).map (fun r => r.sex)))
      "age" ((splitRows t).map (fun r => r.age)))
      "region" ((splitRows t).map (fun r => r.region))

/-! ### Concrete tables from the spec's examples -/

/-- The flag-stripping example table: one year column with the three cells
`"21.8 bep"`, `":"`, `"21.5 e"`. -/
def flagTable : RawTable :=
  ⟨"unit,sex,age,geo\\time",
   ["YR,F,Y65,PT", "YR,M,Y65,PT", "YR,T,Y65,PT"],
   [("2020 ", ["21.8 bep", ":", "21.5 e"])]⟩

/-- The region-filter example table: rows with regions PT, FR, DE and values
21.5, 23.4, 20.8. -/
def regionTable : RawTable :=
  ⟨"unit,sex,age,geo\\time",
   ["YR,F,Y65,PT", "YR,F,Y65,FR", "YR,F,Y65,DE"],
   [("2020", ["21.5", "23.4", "20.8"])]⟩

/-- A table whose second row's composite key splits into three parts while the
first row's splits into four. -/
def shortKeyTable : RawTable :=
  ⟨"unit,sex,age,geo\\time",
   ["YR,F,Y65,PT", "YR,F,Y65"],
   [("2020", ["21.5", "21.7"])]⟩

/-- A table with one value cell carrying an uppercase trailing letter. -/
def upperFlagTable : RawTable :=
  ⟨"unit,sex,age,geo\\time",
   ["YR,F,Y65,PT", "YR,M,Y65,PT"],
   [("2020", ["21.5 E", "21.5"])]⟩

/-- A table with one value cell holding the uppercase infinity string. -/
def infTable : RawTable :=
  ⟨"unit,sex,age,geo\\time",
   ["YR,F,Y65,PT", "YR,M,Y65,PT"],
   [("2020", ["INF", "21.5"])]⟩

/-- Whether the maximal trailing run of ASCII letters of a string contains an
uppercase letter. -/
def trailingLetterRunHasUpper (s : String) : Bool :=
  (s.data.reverse.takeWhile isLetterC).any isUpperAZ

/-! ### The `Region` enumeration (`regions.py`) -/

/-- The closed enumeration of region codes of `regions.py`, in declaration
order: the individual countries first, then the aggregate regions. -/
inductive Region where
  | AL | AM | AT | AZ | BE | BG | BY | CH | CY | CZ
  | DE | DK | EE | EL | ES | FI | FR | GE | HR | HU
  | IE | IS | IT | LI | LT | LU | LV | MD | ME | MK
  | MT | NL | NO | PL | PT | RO | RS | RU | SE | SI
  | SK | SM | TR | UA | UK | XK
  | DE_TOT | EA18 | EA19 | EEA30_2007 | EEA31 | EFTA
  | EU27_2007 | EU27_2020 | EU28 | FX
deriving DecidableEq, Repr

/-- Iteration order of the enum (`for region in cls`): declaration order. -/
def Region.all : List Region :=
  [.AL, .AM, .AT, .AZ, .BE, .BG, .BY, .CH, .CY, .CZ,
   .DE, .DK, .EE, .EL, .ES, .FI, .FR, .GE, .HR, .HU,
   .IE, .IS, .IT, .LI, .LT, .LU, .LV, .MD, .ME, .MK,
   .MT, .NL, .NO, .PL, .PT, .RO, .RS, .RU, .SE, .SI,
   .SK, .SM, .TR, .UA, .UK, .XK,
   .DE_TOT, .EA18, .EA19, .EEA30_2007, .EEA31, .EFTA,
   .EU27_2007, .EU27_2020, .EU28, .FX]

/-- The `value` string of each member. -/
def Region.code : Region → String
  | .AL => "AL" | .AM => "AM" | .AT => "AT" | .AZ => "AZ" | .BE => "BE"
  | .BG => "BG" | .BY => "BY" | .CH => "CH" | .CY => "CY" | .CZ => "CZ"
  | .DE => "DE" | .DK => "DK" | .EE => "EE" | .EL => "EL" | .ES => "ES"
  | .FI => "FI" | .FR => "FR" | .GE => "GE" | .HR => "HR" | .HU => "HU"
  | .IE => "IE" | .IS => "IS" | .IT => "IT" | .LI => "LI" | .LT => "LT"
  | .LU => "LU" | .LV => "LV" | .MD => "MD" | .ME => "ME" | .MK => "MK"
  | .MT => "MT" | .NL => "NL" | .NO => "NO" | .PL => "PL" | .PT => "PT"
  | .RO => "RO" | .RS => "RS" | .RU => "RU" | .SE => "SE" | .SI => "SI"
  | .SK => "SK" | .SM => "SM" | .TR => "TR" | .UA => "UA" | .UK => "UK"
  | .XK => "XK"
  | .DE_TOT => "DE_TOT" | .EA18 => "EA18" | .EA19 => "EA19"
  | .EEA30_2007 => "EEA30_2007" | .EEA31 => "EEA31" | .EFTA => "EFTA"
  | .EU27_2007 => "EU27_2007" | .EU27_2020 => "EU27_2020" | .EU28 => "EU28"
  | .FX => "FX"

/-- The `aggregates` set built inside `Region.countries` (lines 77–88 of
`regions.py`). -/
def Region.aggregates : List Region :=
  [.DE_TOT, .EA18, .EA19, .EEA30_2007, .EEA31, .EFTA,
   .EU27_2007, .EU27_2020, .EU28, .FX]

/-- `Region.countries()`: the list comprehension
`[region for region in cls if region not in aggregates]`. -/
def Region.countries : List Region :=
  Region.all.filter (fun r => decide (r ∉ Region.aggregates))

/-! ### Character-class facts -/

theorem isDigitC_iff {c : Char} : isDigitC c = true ↔ 48 ≤ c.toNat ∧ c.toNat ≤ 57 := by
  simp [isDigitC]

theorem isLetterC_iff {c : Char} :
    isLetterC c = true ↔ (97 ≤ c.toNat ∧ c.toNat ≤ 122) ∨ (65 ≤ c.toNat ∧ c.toNat ≤ 90) := by
  simp [isLetterC, isLowerAZ, isUpperAZ]

theorem isLetterC_not_digit {d : Char} (h : isLetterC d = true) : isDigitC d = false := by
  rw [Bool.eq_false_iff]
  intro hd
  rw [isLetterC_iff] at h
  rw [isDigitC_iff] at hd
  omega

theorem ne_of_isLetterC {d : Char} (h : isLetterC d = true) {c : Char}
    (hc : isLetterC c = false) : d ≠ c := by
  intro he
  rw [he, hc] at h
  cases h

theorem isLowerAZ_not_upper {d : Char} (h : isLowerAZ d = true) : isUpperAZ d = false := by
  rw [Bool.eq_false_iff]
  intro hu
  simp only [isLowerAZ, Bool.and_eq_true, decide_eq_true_eq] at h
  simp only [isUpperAZ, Bool.and_eq_true, decide_eq_true_eq] at hu
  omega

theorem isUpperAZ_not_lower {d : Char} (h : isUpperAZ d = true) : isLowerAZ d = false := by
  rw [Bool.eq_false_iff]
  intro hl
  simp only [isLowerAZ, Bool.and_eq_true, decide_eq_true_eq] at hl
  simp only [isUpperAZ, Bool.and_eq_true, decide_eq_true_eq] at h
  omega

theorem isUpperAZ_not_space {d : Char} (h : isUpperAZ d = true) : isPySpace d = false := by
  rw [Bool.eq_false_iff]
  intro hs
  simp only [isUpperAZ, Bool.and_eq_true, decide_eq_true_eq] at h
  simp only [isPySpace, Bool.or_eq_true, decide_eq_true_eq] at hs
  omega

theorem isLowerAZ_letter {d : Char} (h : isLowerAZ d = true) : isLetterC d = true := by
  simp [isLetterC, h]

/-! ### Facts about the splitter -/

theorem splitOnP_cons (p : Char → Bool) (c : Char) (cs : List Char) :
    splitOnP p (c :: cs) =
      match splitOnP p cs with
      | [] => [[]]
      | r :: rs => if p c then [] :: r :: rs else (c :: r) :: rs := rfl

theorem splitOnP_cons_of_eq (p : Char → Bool) (c : Char) (cs r0 : List Char)
    (rs0 : List (List Char)) (h0 : splitOnP p cs = r0 :: rs0) :
    splitOnP p (c :: cs) = if p c then [] :: r0 :: rs0 else (c :: r0) :: rs0 := by
  rw [splitOnP_cons, h0]

theorem splitOnP_ne_nil (p : Char → Bool) (cs : List Char) : splitOnP p cs ≠ [] := by
  induction cs with
  | nil => simp [splitOnP]
  | cons c cs ih =>
    rw [splitOnP_cons]
    cases h : splitOnP p cs with
    | nil => exact absurd h ih
    | cons r rs => by_cases hp : p c <;> simp [hp]

theorem splitOnP_eq_singleton (p : Char → Bool) (cs r : List Char)
    (h : splitOnP p cs = [r]) : r = cs := by
  induction cs generalizing r with
  | nil =>
    simp [splitOnP] at h
    exact h
  | cons c cs ih =>
    cases h0 : splitOnP p cs with
    | nil => exact absurd h0 (splitOnP_ne_nil p cs)
    | cons r0 rs0 =>
      rw [splitOnP_cons_of_eq p c cs r0 rs0 h0] at h
      by_cases hp : p c
      · rw [if_pos hp] at h
        simp at h
      · rw [if_neg hp] at h
        obtain ⟨h1, h2⟩ : c :: r0 = r ∧ rs0 = [] := by simpa using h
        subst h2
        rw [← h1, ih r0 h0]

theorem getLast?_cons_of_ne_nil {α} (a : α) {l : List α} (h : l ≠ []) :
    (a :: l).getLast? = l.getLast? := by
  cases l with
  | nil => exact absurd rfl h
  | cons b t => exact List.getLast?_cons_cons

theorem mem_of_getLast? {α} {l : List α} {a : α} (h : l.getLast? = some a) : a ∈ l := by
  induction l with
  | nil => simp at h
  | cons b t ih =>
    cases ht : t with
    | nil =>
      subst ht
      simp_all
    | cons c u =>
      subst ht
      rw [List.getLast?_cons_cons] at h
      exact List.mem_cons_of_mem _ (ih h)

theorem splitOnP_getLast (p : Char → Bool) (cs : List Char) (d : Char)
    (hd : cs.getLast? = some d) :
    ∃ r, (splitOnP p cs).getLast? = some r ∧
      ((p d = true ∧ r = []) ∨ (p d = false ∧ r.getLast? = some d)) := by
  induction cs with
  | nil => simp at hd
  | cons c cs ih =>
    cases cs with
    | nil =>
      have hcd : c = d := by simpa using hd
      subst hcd
      by_cases hp : p c
      · exact ⟨[], by simp [splitOnP, hp], Or.inl ⟨hp, rfl⟩⟩
      · exact ⟨[c], by simp [splitOnP, hp], Or.inr ⟨Bool.eq_false_iff.mpr hp, by simp⟩⟩
    | cons c2 cs2 =>
      rw [List.getLast?_cons_cons] at hd
      obtain ⟨r, hr, hcase⟩ := ih hd
      cases h0 : splitOnP p (c2 :: cs2) with
      | nil => exact absurd h0 (splitOnP_ne_nil p _)
      | cons r0 rs0 =>
        rw [h0] at hr
        by_cases hp : p c
        · refine ⟨r, ?_, hcase⟩
          rw [splitOnP_cons_of_eq p c _ r0 rs0 h0, if_pos hp, List.getLast?_cons_cons]
          exact hr
        · cases rs0 with
          | nil =>
            have hr0 : r = r0 := by simpa using hr.symm
            subst hr0
            have heq : r = c2 :: cs2 := splitOnP_eq_singleton p _ _ h0
            rcases hcase with ⟨hp', hr'⟩ | ⟨hp', hr'⟩
            · rw [hr'] at heq
              simp at heq
            · have hrne : r ≠ [] := by
                intro hnil
                rw [hnil] at hr'
                simp at hr'
              refine ⟨c :: r, ?_, Or.inr ⟨hp', ?_⟩⟩
              · rw [splitOnP_cons_of_eq p c _ r [] h0, if_neg hp]
                simp
              · rw [getLast?_cons_of_ne_nil _ hrne]
                exact hr'
          | cons r1 rs1 =>
            refine ⟨r, ?_, hcase⟩
            rw [splitOnP_cons_of_eq p c _ r0 (r1 :: rs1) h0, if_neg hp,
              List.getLast?_cons_cons]
            rw [List.getLast?_cons_cons] at hr
            exact hr

/-! ### The parsers reject a string ending in a letter -/

theorem parseNatList_of_not_digit {cs : List Char} {d : Char} (hd : d ∈ cs)
    (hD : isDigitC d = false) : parseNatList cs = none := by
  have h1 : cs.isEmpty = false := by
    cases cs with
    | nil => simp at hd
    | cons a l => rfl
  have h2 : cs.all isDigitC = false := by
    rw [Bool.eq_false_iff]
    intro hall
    rw [List.all_eq_true] at hall
    rw [hall d hd] at hD
    cases hD
  simp [parseNatList, h1, h2]

theorem stripSign_snd_getLast {cs : List Char} {d : Char} (hd : cs.getLast? = some d)
    (h1 : d ≠ '+') (h2 : d ≠ '-') : (stripSign cs).2.getLast? = some d := by
  rcases List.getLast?_eq_some_iff.mp hd with ⟨l', rfl⟩
  cases l' with
  | nil => simp [stripSign, h1, h2]
  | cons c l'' =>
    show (stripSign (c :: l'' ++ [d])).2.getLast? = some d
    simp only [List.cons_append, stripSign]
    by_cases hc1 : c = '+'
    · rw [if_pos hc1]
      exact List.getLast?_concat _
    · rw [if_neg hc1]
      by_cases hc2 : c = '-'
      · rw [if_pos hc2]
        exact List.getLast?_concat _
      · rw [if_neg hc2]
        show (c :: (l'' ++ [d])).getLast? = some d
        rw [← List.cons_append]
        exact List.getLast?_concat _

theorem parseSignedInt_last_letter {cs : List Char} {d : Char} (hd : cs.getLast? = some d)
    (hL : isLetterC d = true) : parseSignedInt cs = none := by
  have hbody : (stripSign cs).2.getLast? = some d :=
    stripSign_snd_getLast hd (ne_of_isLetterC hL (by decide)) (ne_of_isLetterC hL (by decide))
  have hmem : d ∈ (stripSign cs).2 := mem_of_getLast? hbody
  rw [parseSignedInt, parseNatList_of_not_digit hmem (isLetterC_not_digit hL)]
  rfl

theorem parseMantissa_eq_single {cs i : List Char}
    (h : splitOnP (fun c => decide (c = '.')) cs = [i]) :
    parseMantissa cs = (parseNatList i).map (fun n => (n, 0)) := by
  rw [parseMantissa, h]

theorem parseMantissa_eq_pair {cs i f : List Char}
    (h : splitOnP (fun c => decide (c = '.')) cs = [i, f]) :
    parseMantissa cs =
      if i.isEmpty && f.isEmpty then none
      else if i.all isDigitC && f.all isDigitC then
        some (natOfDigits i * 10 ^ f.length + natOfDigits f, f.length)
      else none := by
  rw [parseMantissa, h]

theorem parseMantissa_eq_more {cs i f g : List Char} {rest : List (List Char)}
    (h : splitOnP (fun c => decide (c = '.')) cs = i :: f :: g :: rest) :
    parseMantissa cs = none := by
  rw [parseMantissa, h]

theorem parseFloat_eq_inf {s : String} (hinf : isInfString (stripSign s.data).2 = true) :
    parseFloat s = some (.inf (decide ((stripSign s.data).1 = -1))) := by
  rw [parseFloat, if_pos hinf]

theorem parseFloat_eq_single {s : String} {m : List Char}
    (hinf : isInfString (stripSign s.data).2 = false)
    (h : splitOnP (fun c => decide (c = 'e') || decide (c = 'E')) (stripSign s.data).2 = [m]) :
    parseFloat s =
      (parseMantissa m).map (fun p =>
        PyFloat.finite (mkRat ((stripSign s.data).1 * p.1) (10 ^ p.2))) := by
  rw [parseFloat, if_neg (by simp [hinf]), h]

theorem parseFloat_eq_pair {s : String} {m e : List Char}
    (hinf : isInfString (stripSign s.data).2 = false)
    (h : splitOnP (fun c => decide (c = 'e') || decide (c = 'E')) (stripSign s.data).2 = [m, e]) :
    parseFloat s =
      (parseMantissa m).bind (fun p => (parseSignedInt e).bind (fun ev =>
        some (PyFloat.finite (mkRat ((stripSign s.data).1 * p.1 * (10 : Int) ^ ev.toNat)
          (10 ^ p.2 * 10 ^ (-ev).toNat))))) := by
  rw [parseFloat, if_neg (by simp [hinf]), h]
  rfl

theorem parseFloat_eq_more {s : String} {m e g : List Char} {rest : List (List Char)}
    (hinf : isInfString (stripSign s.data).2 = false)
    (h : splitOnP (fun c => decide (c = 'e') || decide (c = 'E')) (stripSign s.data).2 =
      m :: e :: g :: rest) :
    parseFloat s = none := by
  rw [parseFloat, if_neg (by simp [hinf]), h]

theorem parseMantissa_last_letter {m : List Char} {d : Char} (hd : m.getLast? = some d)
    (hL : isLetterC d = true) : parseMantissa m = none := by
  have hdot : decide (d = '.') = false := by
    simp only [decide_eq_false_iff_not]
    exact ne_of_isLetterC hL (by decide)
  obtain ⟨r, hr, hcase⟩ := splitOnP_getLast (fun c => decide (c = '.')) m d hd
  have hrd : r.getLast? = some d := by
    rcases hcase with ⟨hp1, _⟩ | ⟨_, hp2⟩
    · rw [hdot] at hp1
      cases hp1
    · exact hp2
  have hdmem : d ∈ r := mem_of_getLast? hrd
  cases hsp : splitOnP (fun c => decide (c = '.')) m with
  | nil => exact absurd hsp (splitOnP_ne_nil _ _)
  | cons i rest =>
    rw [hsp] at hr
    cases rest with
    | nil =>
      have hri : r = i := by simpa using hr.symm
      subst hri
      rw [parseMantissa_eq_single hsp,
        parseNatList_of_not_digit hdmem (isLetterC_not_digit hL)]
      rfl
    | cons f rest2 =>
      cases rest2 with
      | nil =>
        have hrf : r = f := by
          rw [List.getLast?_cons_cons] at hr
          simpa using hr.symm
        subst hrf
        have hfne : r.isEmpty = false := by
          cases r with
          | nil => simp at hdmem
          | cons a l => rfl
        have hfd : r.all isDigitC = false := by
          rw [Bool.eq_false_iff]
          intro hall
          rw [List.all_eq_true] at hall
          exact absurd (hall d hdmem) (by simp [isLetterC_not_digit hL])
        rw [parseMantissa_eq_pair hsp, hfne, hfd]
        simp
      | cons g rest3 => exact parseMantissa_eq_more hsp

theorem parseFloat_last_letter {s : String} {d : Char} (hd : s.data.getLast? = some d)
    (hL : isLetterC d = true) (hinf : isInfString (stripSign s.data).2 = false) :
    parseFloat s = none := by
  have hbody : (stripSign s.data).2.getLast? = some d :=
    stripSign_snd_getLast hd (ne_of_isLetterC hL (by decide)) (ne_of_isLetterC hL (by decide))
  obtain ⟨r, hr, hcase⟩ :=
    splitOnP_getLast (fun c => decide (c = 'e') || decide (c = 'E')) _ d hbody
  cases hsp : splitOnP (fun c => decide (c = 'e') || decide (c = 'E')) (stripSign s.data).2 with
  | nil => exact absurd hsp (splitOnP_ne_nil _ _)
  | cons m rest =>
    rw [hsp] at hr
    cases rest with
    | nil =>
      have hrm : r = m := by simpa using hr.symm
      subst hrm
      rw [parseFloat_eq_single hinf hsp]
      rcases hcase with ⟨_, hre⟩ | ⟨_, hrd⟩
      · subst hre
        rfl
      · rw [parseMantissa_last_letter hrd hL]
        rfl
    | cons e rest2 =>
      cases rest2 with
      | nil =>
        have hre : r = e := by
          rw [List.getLast?_cons_cons] at hr
          simpa using hr.symm
        subst hre
        rw [parseFloat_eq_pair hinf hsp]
        rcases hcase with ⟨_, hrnil⟩ | ⟨_, hrd⟩
        · subst hrnil
          cases parseMantissa m with
          | none => rfl
          | some p => rfl
        · rw [parseSignedInt_last_letter hrd hL]
          cases parseMantissa m with
          | none => rfl
          | some p => rfl
      | cons g rest3 => exact parseFloat_eq_more hinf hsp

/-! ### Facts about flag stripping -/

theorem dropWhile_head_not {p : Char → Bool} {l rest : List Char} {c : Char}
    (h : l.dropWhile p = c :: rest) : p c = false := by
  induction l with
  | nil => simp at h
  | cons a t ih =>
    rw [List.dropWhile_cons] at h
    by_cases hp : p a
    · rw [if_pos hp] at h
      exact ih h
    · rw [if_neg hp] at h
      injection h with h1 h2
      subst h1
      exact Bool.eq_false_iff.mpr hp

theorem takeWhile_append_all {p : Char → Bool} {l1 l2 : List Char}
    (h : ∀ x ∈ l1, p x = true) : (l1 ++ l2).takeWhile p = l1 ++ l2.takeWhile p := by
  induction l1 with
  | nil => simp
  | cons a t ih =>
    have ha := h a (List.mem_cons_self a t)
    simp only [List.cons_append, List.takeWhile_cons, if_pos ha,
      ih (fun x hx => h x (List.mem_cons_of_mem a hx))]

theorem stripFlagsRev_upper {cs : List Char}
    (h : (cs.takeWhile isLetterC).any isUpperAZ = true) :
    ∃ d rest, stripFlagsRev cs = d :: rest ∧ isUpperAZ d = true := by
  have hsplit : cs.takeWhile isLowerAZ ++ cs.dropWhile isLowerAZ = cs :=
    List.takeWhile_append_dropWhile _ _
  have hflags : ∀ x ∈ cs.takeWhile isLowerAZ, isLowerAZ x = true :=
    fun x hx => List.mem_takeWhile_imp hx
  cases hdrop : cs.dropWhile isLowerAZ with
  | nil =>
    exfalso
    have hcs : ∀ x ∈ cs, isLowerAZ x = true := by
      intro x hx
      apply hflags
      rw [← hsplit, hdrop, List.append_nil] at hx
      exact hx
    have hletter : ∀ x ∈ cs, isLetterC x = true := fun x hx => isLowerAZ_letter (hcs x hx)
    have htake : cs.takeWhile isLetterC = cs := by
      have happ : ((cs ++ []).takeWhile isLetterC) = cs ++ [].takeWhile isLetterC :=
        takeWhile_append_all hletter
      simpa using happ
    rw [htake, List.any_eq_true] at h
    obtain ⟨x, hx, hup⟩ := h
    rw [isLowerAZ_not_upper (hcs x hx)] at hup
    cases hup
  | cons h0 tl =>
    have hh0 : isLowerAZ h0 = false := dropWhile_head_not hdrop
    have hh0letter : isLetterC h0 = true := by
      by_contra hnl
      have hnl' : isLetterC h0 = false := Bool.eq_false_iff.mpr hnl
      have hlet : ∀ x ∈ cs.takeWhile isLowerAZ, isLetterC x = true :=
        fun x hx => isLowerAZ_letter (hflags x hx)
      have heq : cs.takeWhile isLetterC = cs.takeWhile isLowerAZ := by
        conv_lhs => rw [← hsplit, hdrop]
        rw [takeWhile_append_all hlet, List.takeWhile_cons, if_neg (by simp [hnl'])]
        rw [List.append_nil]
      rw [heq, List.any_eq_true] at h
      obtain ⟨x, hx, hup⟩ := h
      rw [isLowerAZ_not_upper (hflags x hx)] at hup
      cases hup
    have hup0 : isUpperAZ h0 = true := by
      have hl := hh0letter
      rw [isLetterC, hh0, Bool.false_or] at hl
      exact hl
    by_cases hfe : (cs.takeWhile isLowerAZ).isEmpty
    · have hfnil : cs.takeWhile isLowerAZ = [] := by
        cases hx : cs.takeWhile isLowerAZ with
        | nil => rfl
        | cons y ys => rw [hx] at hfe; cases hfe
      have hcs : cs = h0 :: tl := by rw [← hsplit, hfnil, List.nil_append, hdrop]
      refine ⟨h0, tl, ?_, hup0⟩
      rw [stripFlagsRev, if_pos hfe, hcs]
    · refine ⟨h0, tl, ?_, hup0⟩
      rw [stripFlagsRev, if_neg hfe, hdrop, List.dropWhile_cons,
        if_neg (by simp [isUpperAZ_not_space hup0])]

theorem stripFlags_of_ends_upper {t : String} {d : Char} (hd : t.data.getLast? = some d)
    (hup : isUpperAZ d = true) : stripFlags t = t := by
  have hrev : t.data.reverse.head? = some d := by rw [List.head?_reverse]; exact hd
  cases hrd : t.data.reverse with
  | nil =>
    rw [hrd] at hrev
    cases hrev
  | cons c tl =>
    rw [hrd] at hrev
    have hcd : c = d := by simpa using hrev
    subst hcd
    have htw : (c :: tl).takeWhile isLowerAZ = [] := by
      rw [List.takeWhile_cons, if_neg (by simp [isUpperAZ_not_lower hup])]
    have hcond : ((c :: tl).takeWhile isLowerAZ).isEmpty = true := by rw [htw]; rfl
    show (⟨(stripFlagsRev t.data.reverse).reverse⟩ : String) = t
    rw [hrd, stripFlagsRev, if_pos hcond, ← hrd, List.reverse_reverse]

theorem stripFlags_isPrefix (t : String) : List.IsPrefix (stripFlags t).data t.data := by
  have hsuf : List.IsSuffix (stripFlagsRev t.data.reverse) t.data.reverse := by
    unfold stripFlagsRev
    split
    · exact List.suffix_refl _
    · exact (List.dropWhile_suffix _).trans (List.dropWhile_suffix _)
  have hpre := List.reverse_prefix.mpr hsuf
  rwa [List.reverse_reverse] at hpre

theorem cleanValue_trailing_upper_none {cell : String}
    (h : (((pyStrip cell).data.reverse.takeWhile isLetterC).any isUpperAZ) = true)
    (hinf : cleansToInf cell = false) :
    cleanValue cell = none := by
  have hne : pyStrip cell ≠ ":" := by
    intro he
    rw [he] at h
    exact absurd h (by decide)
  obtain ⟨d, rest, hsf, hup⟩ := stripFlagsRev_upper h
  have hlast : (stripFlags (pyStrip cell)).data.getLast? = some d := by
    show ((stripFlagsRev (pyStrip cell).data.reverse).reverse).getLast? = some d
    rw [List.getLast?_reverse, hsf]
    rfl
  show (if pyStrip cell = ":" then none else parseFloat (stripFlags (pyStrip cell))) = none
  rw [if_neg hne]
  exact parseFloat_last_letter hlast (by rw [isLetterC, hup]; simp) hinf

theorem cleanValue_trailing_upper_not_finite {cell : String}
    (h : (((pyStrip cell).data.reverse.takeWhile isLetterC).any isUpperAZ) = true) :
    ∀ q : Rat, cleanValue cell ≠ some (.finite q) := by
  intro q
  have hne : pyStrip cell ≠ ":" := by
    intro he
    rw [he] at h
    exact absurd h (by decide)
  show (if pyStrip cell = ":" then none else parseFloat (stripFlags (pyStrip cell))) ≠
    some (.finite q)
  rw [if_neg hne]
  cases hinf : isInfString (stripSign (stripFlags (pyStrip cell)).data).2 with
  | false =>
    obtain ⟨d, rest, hsf, hup⟩ := stripFlagsRev_upper h
    have hlast : (stripFlags (pyStrip cell)).data.getLast? = some d := by
      show ((stripFlagsRev (pyStrip cell).data.reverse).reverse).getLast? = some d
      rw [List.getLast?_reverse, hsf]
      rfl
    rw [parseFloat_last_letter hlast (by rw [isLetterC, hup]; simp) hinf]
    simp
  | true =>
    rw [parseFloat_eq_inf hinf]
    simp

/-! ### Facts about the pipeline stages -/

theorem clean_data_eq_ok {t : RawTable} (region : String) {rows : List ParsedRow}
    (hw : expandWidth t = 4) (hp : parseYears (meltedRows t) = some rows) :
    clean_data t region = .ok ⟨cleanColumns, filterRegion (dropNullValues rows) region⟩ := by
  rw [clean_data, if_neg (by simp [hw]), hp]

theorem clean_data_eq_err_year {t : RawTable} (region : String)
    (hw : expandWidth t = 4) (hp : parseYears (meltedRows t) = none) :
    clean_data t region = .error .yearError := by
  rw [clean_data, if_neg (by simp [hw]), hp]

theorem clean_data_eq_err_split {t : RawTable} (region : String)
    (hw : expandWidth t ≠ 4) : clean_data t region = .error .splitError := by
  rw [clean_data, if_pos hw]

theorem clean_data_ok {t : RawTable} {region : String} {ct : CleanTable}
    (h : clean_data t region = .ok ct) :
    expandWidth t = 4 ∧ ∃ rows, parseYears (meltedRows t) = some rows ∧
      ct = ⟨cleanColumns, filterRegion (dropNullValues rows) region⟩ := by
  by_cases hw : expandWidth t = 4
  · cases hp : parseYears (meltedRows t) with
    | none =>
      rw [clean_data_eq_err_year region hw hp] at h
      cases h
    | some rows =>
      rw [clean_data_eq_ok region hw hp] at h
      exact ⟨hw, rows, rfl, (Except.ok.inj h).symm⟩
  · rw [clean_data_eq_err_split region hw] at h
    cases h

theorem parseYears_nil : parseYears [] = some [] := rfl

theorem parseYears_cons_eq {r : MeltRow} {rs : List MeltRow} {y : Int}
    {rest : List ParsedRow} (hy : parseIntStr (pyStrip r.year) = some y)
    (hr : parseYears rs = some rest) :
    parseYears (r :: rs) = some (⟨r.key, y, r.value⟩ :: rest) := by
  simp [parseYears, hy, hr]

theorem parseYears_mem {ms : List MeltRow} {rows : List ParsedRow}
    (h : parseYears ms = some rows) {q : ParsedRow} (hq : q ∈ rows) :
    ∃ m ∈ ms, parseIntStr (pyStrip m.year) = some q.year ∧
      q.key = m.key ∧ q.value = m.value := by
  induction ms generalizing rows with
  | nil =>
    rw [parseYears_nil] at h
    obtain rfl : rows = [] := (Option.some.inj h).symm
    simp at hq
  | cons m ms ih =>
    cases hy : parseIntStr (pyStrip m.year) with
    | none => simp [parseYears, hy] at h
    | some y =>
      cases hr : parseYears ms with
      | none => simp [parseYears, hy, hr] at h
      | some rest =>
        rw [parseYears_cons_eq hy hr] at h
        obtain rfl : rows = ⟨m.key, y, m.value⟩ :: rest := (Option.some.inj h).symm
        rcases List.mem_cons.mp hq with hq1 | hq2
        · subst hq1
          exact ⟨m, List.mem_cons_self m ms, hy, rfl, rfl⟩
        · obtain ⟨m2, hm2, hk⟩ := ih hr hq2
          exact ⟨m2, List.mem_cons_of_mem m hm2, hk⟩

theorem splitRows_mem {t : RawTable} {sr : SplitRow} (h : sr ∈ splitRows t) :
    ∃ k ∈ t.keyCol, sr = toSplitRow (splitKey k) := by
  rw [splitRows, List.mem_map] at h
  obtain ⟨k, hk, he⟩ := h
  exact ⟨k, hk, he.symm⟩

theorem meltedRows_mem {t : RawTable} {m : MeltRow} (hm : m ∈ meltedRows t) :
    ∃ c ∈ t.yearCols, m.year = c.1 ∧ m.value ∈ c.2 ∧ m.key ∈ splitRows t := by
  rw [meltedRows, List.mem_flatMap] at hm
  obtain ⟨c, hc, hmem⟩ := hm
  rw [List.mem_map] at hmem
  obtain ⟨⟨sr, cell⟩, hz, he⟩ := hmem
  have hz2 := List.of_mem_zip hz
  subst he
  exact ⟨c, hc, rfl, hz2.2, hz2.1⟩

theorem dropNullValues_mem {rows : List ParsedRow} {r : CleanRow}
    (h : r ∈ dropNullValues rows) :
    ∃ q ∈ rows, cleanValue q.value = some r.value ∧ r.unit = q.key.unit ∧
      r.sex = q.key.sex ∧ r.age = q.key.age ∧ r.region = q.key.region ∧ r.year = q.year := by
  rw [dropNullValues, List.mem_filterMap] at h
  obtain ⟨q, hq, he⟩ := h
  rw [Option.map_eq_some'] at he
  obtain ⟨v, hv, hr⟩ := he
  subst hr
  exact ⟨q, hq, hv, rfl, rfl, rfl, rfl, rfl⟩

theorem filterRegion_mem {rows : List CleanRow} {region : String} {r : CleanRow} :
    r ∈ filterRegion rows region ↔ r ∈ rows ∧ r.region = some region := by
  rw [filterRegion, List.mem_filter]
  simp

/-- Full provenance of every output row of `clean_data`: its id fields come
from the comma-split of one input key, its year from the stripped parse of one
year-column label, and its value from the cleaning of one raw cell of that
column; and its region equals the requested code. -/
theorem clean_data_row_provenance {t : RawTable} {region : String} {ct : CleanTable}
    (h : clean_data t region = .ok ct) {r : CleanRow} (hr : r ∈ ct.rows) :
    ∃ k ∈ t.keyCol, ∃ c ∈ t.yearCols, ∃ cell ∈ c.2,
      r.unit = (toSplitRow (splitKey k)).unit ∧
      r.sex = (toSplitRow (splitKey k)).sex ∧
      r.age = (toSplitRow (splitKey k)).age ∧
      r.region = (toSplitRow (splitKey k)).region ∧
      parseIntStr (pyStrip c.1) = some r.year ∧
      cleanValue cell = some r.value ∧
      r.region = some region := by
  obtain ⟨hw, rows, hp, hct⟩ := clean_data_ok h
  subst hct
  have hfilter := filterRegion_mem.mp hr
  obtain ⟨hmem, hreg⟩ := hfilter
  obtain ⟨q, hq, hv, hu, hs, ha, hrg, hy⟩ := dropNullValues_mem hmem
  obtain ⟨m, hm, hyear, hkey, hval⟩ := parseYears_mem hp hq
  obtain ⟨c, hc, hmyear, hmval, hmkey⟩ := meltedRows_mem hm
  obtain ⟨k, hk, hsk⟩ := splitRows_mem hmkey
  refine ⟨k, hk, c, hc, m.value, hmval, ?_, ?_, ?_, ?_, ?_, ?_, hreg⟩
  · rw [hu, hkey, hsk]
  · rw [hs, hkey, hsk]
  · rw [ha, hkey, hsk]
  · rw [hrg, hkey, hsk]
  · rw [hmyear] at hyear
    rw [hy]
    exact hyear
  · rw [← hval, hv]

theorem dropNullValues_length (rows : List ParsedRow) :
    (dropNullValues rows).length =
      (rows.filter (fun q => (cleanValue q.value).isSome)).length := by
  induction rows with
  | nil => rfl
  | cons q rs ih =>
    rw [dropNullValues, List.filterMap_cons, List.filter_cons]
    cases hv : cleanValue q.value with
    | none =>
      simp only [hv, Option.map_none', Option.isSome_none, Bool.false_eq_true, if_false]
      exact ih
    | some v =>
      simp only [hv, Option.map_some', Option.isSome_some, if_true, List.length_cons]
      rw [← ih]
      rfl

/-! ### Row-count facts -/

theorem sum_map_eq_mul {α : Type} (l : List α) (f : α → Nat) (k : Nat)
    (h : ∀ a ∈ l, f a = k) : (l.map f).sum = l.length * k := by
  induction l with
  | nil => simp
  | cons a t ih =>
    rw [List.map_cons, List.sum_cons, h a (List.mem_cons_self a t),
      ih (fun x hx => h x (List.mem_cons_of_mem a hx)), List.length_cons]
    ring

theorem splitRows_length (t : RawTable) : (splitRows t).length = t.keyCol.length := by
  rw [splitRows, List.length_map]

theorem meltedRows_length (t : RawTable) (h : t.wf) :
    (meltedRows t).length = t.keyCol.length * t.yearCols.length := by
  rw [meltedRows, List.length_flatMap]
  rw [sum_map_eq_mul _ _ t.keyCol.length
    (fun c hc => by
      simp only [Function.comp_apply, List.length_map, List.length_zip, splitRows_length,
        h c hc, Nat.min_self])]
  ring

theorem filterRegion_length_le (rows : List CleanRow) (region : String) :
    (filterRegion rows region).length ≤ rows.length :=
  List.length_filter_le _ rows

/-! ### The empty result of an unmatched region -/

theorem clean_data_empty_of_no_match {t : RawTable} {region : String} {rows : List ParsedRow}
    (hw : expandWidth t = 4) (hp : parseYears (meltedRows t) = some rows)
    (hnone : ∀ k ∈ t.keyCol, (toSplitRow (splitKey k)).region ≠ some region) :
    clean_data t region = .ok ⟨cleanColumns, []⟩ := by
  rw [clean_data_eq_ok region hw hp]
  have hnil : filterRegion (dropNullValues rows) region = [] := by
    rw [filterRegion, List.filter_eq_nil_iff]
    intro r hrmem
    simp only [decide_eq_true_eq]
    intro hreq
    obtain ⟨q, hq, _, _, _, _, hrg, _⟩ := dropNullValues_mem hrmem
    obtain ⟨m, hm, _, hkey, _⟩ := parseYears_mem hp hq
    obtain ⟨c, hc, _, _, hmkey⟩ := meltedRows_mem hm
    obtain ⟨k, hk, hsk⟩ := splitRows_mem hmkey
    apply hnone k hk
    rw [← hsk, ← hkey, ← hrg]
    exact hreq
  rw [hnil]

/-! ### The in-place column assignment -/

theorem setCol_append {f : Frame} {name : String} (col : List (Option String))
    (h : ∀ c ∈ f, c.1 ≠ name) : setCol f name col = f ++ [(name, col)] := by
  rw [setCol, if_neg]
  intro hany
  rw [List.any_eq_true] at hany
  obtain ⟨c, hc, hcd⟩ := hany
  exact h c hc (of_decide_eq_true hcd)

theorem callerFrameAfter_eq {t : RawTable} (hw : expandWidth t = 4)
    (hfresh : ∀ c ∈ rawFrame t, c.1 ∉ (["unit", "sex", "age", "region"] : List String)) :
    callerFrameAfter t = rawFrame t ++
      [("unit", (splitRows t).map (fun r => r.unit)),
       ("sex", (splitRows t).map (fun r => r.sex)),
       ("age", (splitRows t).map (fun r => r.age)),
       ("region", (splitRows t).map (fun r => r.region))] := by
  have h1 : ∀ c ∈ rawFrame t, c.1 ≠ "unit" := fun c hc he => hfresh c hc (by rw [he]; simp)
  have h2 : ∀ c ∈ rawFrame t, c.1 ≠ "sex" := fun c hc he => hfresh c hc (by rw [he]; simp)
  have h3 : ∀ c ∈ rawFrame t, c.1 ≠ "age" := fun c hc he => hfresh c hc (by rw [he]; simp)
  have h4 : ∀ c ∈ rawFrame t, c.1 ≠ "region" := fun c hc he => hfresh c hc (by rw [he]; simp)
  have mk : ∀ (name : String) (f : Frame), (∀ c ∈ f, c.1 ≠ name) →
      ∀ (p : String × List (Option String)), p.1 ≠ name →
      ∀ c ∈ f ++ [p], c.1 ≠ name := by
    intro name f hf p hp c hc
    rcases List.mem_append.mp hc with hc1 | hc2
    · exact hf c hc1
    · have : c = p := by simpa using hc2
      rw [this]
      exact hp
  rw [callerFrameAfter, if_neg (by simp [hw])]
  rw [setCol_append _ h1]
  rw [setCol_append _ (mk "sex" _ h2
    ("unit", (splitRows t).map (fun r => r.unit)) (by simp))]
  rw [setCol_append _ (mk "age" _ (mk "age" _ h3
    ("unit", (splitRows t).map (fun r => r.unit)) (by simp))
    ("sex", (splitRows t).map (fun r => r.sex)) (by simp))]
  rw [setCol_append _ (mk "region" _ (mk "region" _ (mk "region" _ h4
    ("unit", (splitRows t).map (fun r => r.unit)) (by simp))
    ("sex", (splitRows t).map (fun r => r.sex)) (by simp))
    ("age", (splitRows t).map (fun r => r.age)) (by simp))]
  simp

/-! ### Smoke tests of the embedding on the spec scenarios -/

example : cleanValue "21.8 bep" = some (PyFloat.finite (mkRat 218 10)) := by decide
example : cleanValue "21.5 e" = some (PyFloat.finite (mkRat 215 10)) := by decide
example : cleanValue ":" = none := by decide
example : cleanValue "21.5 E" = none := by decide
example : parseIntStr (pyStrip "2020 ") = some 2020 := by decide

example :
    clean_data flagTable "PT" =
      .ok ⟨cleanColumns,
        [⟨some "YR", some "F", some "Y65", some "PT", 2020, PyFloat.finite (mkRat 218 10)⟩,
         ⟨some "YR", some "T", some "Y65", some "PT", 2020, PyFloat.finite (mkRat 215 10)⟩]⟩ := by
  rfl

example :
    clean_data regionTable "FR" =
      .ok ⟨cleanColumns,
        [⟨some "YR", some "F", some "Y65", some "FR", 2020, PyFloat.finite (mkRat 234 10)⟩]⟩ := by
  rfl

example : clean_data regionTable "fr" = .ok ⟨cleanColumns, []⟩ := by rfl

example : Region.countries.length = 46 := by decide
example : Region.PT ∈ Region.countries := by decide
example : Region.EU28 ∉ Region.countries := by decide


/-! ### The claims -/

/-- C1: for every raw value cell in a year column, `clean_data` cleans the
value by stripping surrounding whitespace, mapping the literal sentinel `":"`
to missing, stripping a trailing lowercase flag sequence (with optional
preceding whitespace) and parsing the remainder as a float; in particular
`"21.8 bep"` yields 21.8, `"21.5 e"` yields 21.5, and a `":"` cell produces no
output row; every output row's value is the cleaning of some raw cell. -/
theorem value_cleaning_spec :
    cleanValue "21.8 bep" = some (PyFloat.finite (mkRat 218 10)) ∧
    cleanValue "21.5 e" = some (PyFloat.finite (mkRat 215 10)) ∧
    cleanValue ":" = none ∧
    clean_data flagTable "PT" = .ok ⟨cleanColumns,
      [⟨some "YR", some "F", some "Y65", some "PT", 2020, PyFloat.finite (mkRat 218 10)⟩,
       ⟨some "YR", some "T", some "Y65", some "PT", 2020, PyFloat.finite (mkRat 215 10)⟩]⟩ ∧
    (∀ (t : RawTable) (region : String) (ct : CleanTable),
      clean_data t region = .ok ct → ∀ r ∈ ct.rows,
        ∃ c ∈ t.yearCols, ∃ cell ∈ c.2, cleanValue cell = some r.value) := by
  refine ⟨by decide, by decide, by decide, by rfl, ?_⟩
  intro t region ct h r hr
  obtain ⟨k, _, c, hc, cell, hcell, _, _, _, _, _, hclean, _⟩ :=
    clean_data_row_provenance h hr
  exact ⟨c, hc, cell, hcell, hclean⟩

theorem value_cleaning_spec_witness :
    ∃ c ∈ flagTable.yearCols, ∃ cell ∈ c.2, cleanValue cell = some (PyFloat.finite (mkRat 218 10)) :=
  value_cleaning_spec.2.2.2.2 flagTable "PT"
    ⟨cleanColumns,
      [⟨some "YR", some "F", some "Y65", some "PT", 2020, PyFloat.finite (mkRat 218 10)⟩,
       ⟨some "YR", some "T", some "Y65", some "PT", 2020, PyFloat.finite (mkRat 215 10)⟩]⟩
    (by rfl)
    ⟨some "YR", some "F", some "Y65", some "PT", 2020, PyFloat.finite (mkRat 218 10)⟩
    (by simp)

/-- C2: `clean_data` retains exactly the rows whose region field equals the
requested code by exact, case-sensitive string equality: membership in the
filtered rows is equivalent to membership before the filter plus region
equality; every output row's region is the requested code; and on the
three-region example filtering on `"FR"` keeps exactly the 23.4 row while
filtering on `"fr"` keeps nothing. -/
theorem region_filter_spec :
    (∀ (rows : List CleanRow) (region : String) (r : CleanRow),
      r ∈ filterRegion rows region ↔ r ∈ rows ∧ r.region = some region) ∧
    (∀ (t : RawTable) (region : String) (ct : CleanTable),
      clean_data t region = .ok ct → ∀ r ∈ ct.rows, r.region = some region) ∧
    clean_data regionTable "FR" = .ok ⟨cleanColumns,
      [⟨some "YR", some "F", some "Y65", some "FR", 2020, PyFloat.finite (mkRat 234 10)⟩]⟩ ∧
    clean_data regionTable "fr" = .ok ⟨cleanColumns, []⟩ := by
  refine ⟨fun rows region r => filterRegion_mem, ?_, by rfl, by rfl⟩
  intro t region ct h r hr
  obtain ⟨hw, rows, hp, hct⟩ := clean_data_ok h
  subst hct
  exact (filterRegion_mem.mp hr).2

theorem region_filter_spec_witness :
    (⟨some "YR", some "F", some "Y65", some "FR", 2020, PyFloat.finite (mkRat 234 10)⟩ : CleanRow).region =
      some "FR" :=
  region_filter_spec.2.1 regionTable "FR"
    ⟨cleanColumns, [⟨some "YR", some "F", some "Y65", some "FR", 2020, PyFloat.finite (mkRat 234 10)⟩]⟩
    (by rfl)
    ⟨some "YR", some "F", some "Y65", some "FR", 2020, PyFloat.finite (mkRat 234 10)⟩
    (by simp)

/-- C3: for every rectangular input table the number of melted rows equals the
number of input rows times the number of year columns, and the row count
after the region filter is at most the row count after the null-value
cleanup. -/
theorem row_count_law_spec :
    (∀ t : RawTable, t.wf →
      (meltedRows t).length = t.keyCol.length * t.yearCols.length) ∧
    (∀ (rows : List ParsedRow) (region : String),
      (filterRegion (dropNullValues rows) region).length ≤
        (dropNullValues rows).length) :=
  ⟨fun t h => meltedRows_length t h,
   fun rows region => filterRegion_length_le (dropNullValues rows) region⟩

theorem row_count_law_spec_witness :
    (meltedRows flagTable).length = flagTable.keyCol.length * flagTable.yearCols.length :=
  row_count_law_spec.1 flagTable (by decide)

/-- C4: no output row of `clean_data` carries a missing value: each output
row's value is the successful cleaning of some raw cell (so it is never
null/NaN), and the null-value cleanup keeps exactly the rows whose cell cleans
to a value. -/
theorem no_null_value_spec :
    (∀ (t : RawTable) (region : String) (ct : CleanTable),
      clean_data t region = .ok ct → ∀ r ∈ ct.rows,
        ∃ c ∈ t.yearCols, ∃ cell ∈ c.2, cleanValue cell = some r.value) ∧
    (∀ rows : List ParsedRow,
      (dropNullValues rows).length =
        (rows.filter (fun q => (cleanValue q.value).isSome)).length) := by
  refine ⟨?_, dropNullValues_length⟩
  intro t region ct h r hr
  obtain ⟨k, _, c, hc, cell, hcell, _, _, _, _, _, hclean, _⟩ :=
    clean_data_row_provenance h hr
  exact ⟨c, hc, cell, hcell, hclean⟩

theorem no_null_value_spec_witness :
    ∃ c ∈ flagTable.yearCols, ∃ cell ∈ c.2, cleanValue cell = some (PyFloat.finite (mkRat 215 10)) :=
  no_null_value_spec.1 flagTable "PT"
    ⟨cleanColumns,
      [⟨some "YR", some "F", some "Y65", some "PT", 2020, PyFloat.finite (mkRat 218 10)⟩,
       ⟨some "YR", some "T", some "Y65", some "PT", 2020, PyFloat.finite (mkRat 215 10)⟩]⟩
    (by rfl)
    ⟨some "YR", some "T", some "Y65", some "PT", 2020, PyFloat.finite (mkRat 215 10)⟩
    (by simp)

/-- C5: every table returned by `clean_data` has exactly the six columns
`[unit, sex, age, region, year, value]` in that order; each row's integer
year is the parse of some year-column label after stripping surrounding
whitespace (the `year : Int` and `value : PyFloat` fields model the integer and
float dtypes). -/
theorem output_shape_spec :
    (∀ (t : RawTable) (region : String) (ct : CleanTable),
      clean_data t region = .ok ct →
        ct.columns = ["unit", "sex", "age", "region", "year", "value"]) ∧
    (∀ (t : RawTable) (region : String) (ct : CleanTable),
      clean_data t region = .ok ct → ∀ r ∈ ct.rows,
        ∃ c ∈ t.yearCols, parseIntStr (pyStrip c.1) = some r.year) := by
  constructor
  · intro t region ct h
    obtain ⟨hw, rows, hp, hct⟩ := clean_data_ok h
    subst hct
    rfl
  · intro t region ct h r hr
    obtain ⟨k, _, c, hc, cell, _, _, _, _, _, hyear, _, _⟩ :=
      clean_data_row_provenance h hr
    exact ⟨c, hc, hyear⟩

theorem output_shape_spec_witness :
    (⟨cleanColumns,
      [⟨some "YR", some "F", some "Y65", some "FR", 2020, PyFloat.finite (mkRat 234 10)⟩]⟩ :
        CleanTable).columns = ["unit", "sex", "age", "region", "year", "value"] :=
  output_shape_spec.1 regionTable "FR"
    ⟨cleanColumns, [⟨some "YR", some "F", some "Y65", some "FR", 2020, PyFloat.finite (mkRat 234 10)⟩]⟩
    (by rfl)

/-- C6: on a well-formed input (split width four, all year labels parse), a
region code matching no row makes `clean_data` return the correctly-shaped
empty table rather than raise. -/
theorem empty_region_spec (t : RawTable) (region : String)
    (hw : expandWidth t = 4) (hy : parseYears (meltedRows t) ≠ none)
    (hnone : ∀ k ∈ t.keyCol, (toSplitRow (splitKey k)).region ≠ some region) :
    clean_data t region = .ok ⟨cleanColumns, []⟩ := by
  cases hp : parseYears (meltedRows t) with
  | none => exact absurd hp hy
  | some rows => exact clean_data_empty_of_no_match hw hp hnone

theorem empty_region_spec_witness : clean_data regionTable "XX" = .ok ⟨cleanColumns, []⟩ :=
  empty_region_spec regionTable "XX" (by decide) (by decide) (by decide)

/-- C7 (counterexample): a table containing a composite key that splits into
three parts, next to a four-part key, does NOT make `clean_data` fail: the
short row is padded with a null region, silently dropped by the region
filter, and the call succeeds. -/
theorem malformed_key_counterexample :
    "YR,F,Y65" ∈ shortKeyTable.keyCol ∧
    (splitKey "YR,F,Y65").length ≠ 4 ∧
    clean_data shortKeyTable "PT" = .ok ⟨cleanColumns,
      [⟨some "YR", some "F", some "Y65", some "PT", 2020, PyFloat.finite (mkRat 215 10)⟩]⟩ := by
  refine ⟨by decide, by decide, by rfl⟩

/-- C7 (amended): `clean_data` raises the split error exactly when the
expanded width (the maximum number of comma-separated parts over all rows)
differs from four; a row with fewer than four parts, when the width is four,
silently receives a null region field instead of raising. -/
theorem malformed_key_amended (t : RawTable) (region : String) :
    (clean_data t region = .error .splitError ↔ expandWidth t ≠ 4) ∧
    (∀ k ∈ t.keyCol, (splitKey k).length < 4 → (toSplitRow (splitKey k)).region = none) := by
  constructor
  · constructor
    · intro h hw
      cases hp : parseYears (meltedRows t) with
      | none =>
        rw [clean_data_eq_err_year region hw hp] at h
        simp at h
      | some rows =>
        rw [clean_data_eq_ok region hw hp] at h
        exact Except.noConfusion h
    · intro hw
      exact clean_data_eq_err_split region hw
  · intro k hk hlen
    show (splitKey k)[3]? = none
    exact List.getElem?_eq_none (by omega)

theorem malformed_key_amended_witness :
    clean_data ⟨"unit,sex,age,geo\\time", ["YR,F,Y65"], [("2020", ["21.5"])]⟩ "PT" =
      .error .splitError :=
  (malformed_key_amended ⟨"unit,sex,age,geo\\time", ["YR,F,Y65"], [("2020", ["21.5"])]⟩
    "PT").1.mpr (by decide)

/-- C8 (counterexample): `clean_data` does NOT leave the caller's frame
unchanged: on the three-region example the key-split assignment stores four
new columns into the caller's object. -/
theorem purity_counterexample : callerFrameAfter regionTable ≠ rawFrame regionTable := by
  decide

/-- C8 (amended): the key-split assignment is the only in-place mutation of
the caller's frame: when the split raises, the frame is untouched; when it
succeeds (and the frame does not already use the four target names), the
caller's frame afterwards is exactly the original columns followed by the
four split columns `unit`, `sex`, `age`, `region`; all later steps rebind a
local name to fresh frames. -/
theorem clean_data_mutation_amended (t : RawTable) :
    (expandWidth t ≠ 4 → callerFrameAfter t = rawFrame t) ∧
    (expandWidth t = 4 →
      (∀ c ∈ rawFrame t, c.1 ∉ (["unit", "sex", "age", "region"] : List String)) →
      callerFrameAfter t = rawFrame t ++
        [("unit", (splitRows t).map (fun r => r.unit)),
         ("sex", (splitRows t).map (fun r => r.sex)),
         ("age", (splitRows t).map (fun r => r.age)),
         ("region", (splitRows t).map (fun r => r.region))]) := by
  constructor
  · intro hw
    rw [callerFrameAfter, if_pos hw]
  · intro hw hfresh
    exact callerFrameAfter_eq hw hfresh

theorem clean_data_mutation_amended_witness :
    callerFrameAfter regionTable = rawFrame regionTable ++
      [("unit", (splitRows regionTable).map (fun r => r.unit)),
       ("sex", (splitRows regionTable).map (fun r => r.sex)),
       ("age", (splitRows regionTable).map (fun r => r.age)),
       ("region", (splitRows regionTable).map (fun r => r.region))] :=
  (clean_data_mutation_amended regionTable).2 (by decide) (by decide)

/-- C9: `Region.countries` returns exactly the members of the closed `Region`
enumeration other than the ten aggregate codes, and no aggregate code appears
in the result. -/
theorem region_countries_spec :
    (∀ r : Region, r ∈ Region.all) ∧
    (∀ r : Region, r ∈ Region.countries ↔
      ¬(r = .DE_TOT ∨ r = .EA18 ∨ r = .EA19 ∨ r = .EEA30_2007 ∨ r = .EEA31 ∨
        r = .EFTA ∨ r = .EU27_2007 ∨ r = .EU27_2020 ∨ r = .EU28 ∨ r = .FX)) := by
  constructor
  · intro r
    cases r <;> decide
  · intro r
    cases r <;> decide

theorem region_countries_spec_witness :
    Region.PT ∈ Region.countries ∧ Region.EU28 ∉ Region.countries :=
  ⟨(region_countries_spec.2 Region.PT).mpr (by decide),
   fun h => (region_countries_spec.2 Region.EU28).mp h (by decide)⟩

/-- C10 (counterexample): two cells with an uppercase letter in their
trailing alphabetic suffix refute the claim as stated: `"21.5 Ee"` IS
stripped (it loses its final lowercase `e`), and `"INF"` does NOT fail
numeric parsing — pandas parses it case-insensitively to float infinity and
the row is kept in the output rather than dropped. -/
theorem uppercase_flag_counterexample :
    (trailingLetterRunHasUpper (pyStrip "21.5 Ee") = true ∧
      stripFlags (pyStrip "21.5 Ee") ≠ pyStrip "21.5 Ee") ∧
    (trailingLetterRunHasUpper (pyStrip "INF") = true ∧
      cleanValue "INF" = some (.inf false) ∧
      clean_data infTable "PT" = .ok ⟨cleanColumns,
        [⟨some "YR", some "F", some "Y65", some "PT", 2020, PyFloat.inf false⟩,
         ⟨some "YR", some "M", some "Y65", some "PT", 2020, PyFloat.finite (mkRat 215 10)⟩]⟩) := by
  refine ⟨⟨by decide, by decide⟩, by decide, by decide, by rfl⟩

/-- C10 (amended): only trailing lowercase-letter runs are stripped: flag
stripping removes at most a suffix and never the uppercase letter, and a cell
ending in an uppercase letter is left entirely unchanged.  A cell whose
trailing letter run contains an uppercase letter never contributes a finite
numeric value; unless the flag-stripped cell is (ignoring case and an
optional sign) one of the infinity strings `inf`/`infinity` — which parse to
float infinity and whose rows are kept — it fails numeric parsing, is coerced
to null, and the row is dropped: concretely, the `"21.5 E"` row disappears
from the output while its `"21.5"` sibling survives. -/
theorem uppercase_flag_amended :
    (∀ cell : String, trailingLetterRunHasUpper (pyStrip cell) = true →
      (∀ q : Rat, cleanValue cell ≠ some (.finite q)) ∧
      List.IsPrefix (stripFlags (pyStrip cell)).data (pyStrip cell).data ∧
      (∀ d, (pyStrip cell).data.getLast? = some d → isUpperAZ d = true →
        stripFlags (pyStrip cell) = pyStrip cell) ∧
      (cleansToInf cell = false → cleanValue cell = none)) ∧
    clean_data upperFlagTable "PT" = .ok ⟨cleanColumns,
      [⟨some "YR", some "M", some "Y65", some "PT", 2020, PyFloat.finite (mkRat 215 10)⟩]⟩ := by
  refine ⟨?_, by rfl⟩
  intro cell h
  exact ⟨cleanValue_trailing_upper_not_finite h, stripFlags_isPrefix _,
    fun d hd hup => stripFlags_of_ends_upper hd hup,
    fun hinf => cleanValue_trailing_upper_none h hinf⟩

theorem uppercase_flag_amended_witness :
    (∀ q : Rat, cleanValue "21.5 E" ≠ some (.finite q)) ∧
    cleanValue "21.5 E" = none ∧
    stripFlags (pyStrip "21.5 E") = pyStrip "21.5 E" :=
  ⟨(uppercase_flag_amended.1 "21.5 E" (by decide)).1,
   (uppercase_flag_amended.1 "21.5 E" (by decide)).2.2.2 (by decide),
   (uppercase_flag_amended.1 "21.5 E" (by decide)).2.2.1 'E' (by decide) (by decide)⟩

end LifeExpectancy
